import Mathlib

/-!
Verification development for the fume-mapping-provider synchronization engine.

The definitions below are a shallow embedding of the cache/reconciliation core:
the FumeMappingProvider orchestrator (user-mapping cache, alias caches, file and
server polling, forced resync) together with the provider helpers it calls
(UserMappingProvider.loadMappings, AliasProvider.loadAliasesWithMetadata and the
conditional-read handlers).  JavaScript Map and plain-object dictionaries are
modelled as association lists over String keys with JS Map.set / property-set
semantics (replace in place, else append).  Asynchronous source reads appear as
explicit parameters holding the read results; the catch-clauses of the source
are modelled by the concrete values those clauses return.
-/

set_option autoImplicit false

/-- Source type of a user mapping: local file or FHIR server. -/
inductive SourceType where
  | file
  | server
  deriving Repr, DecidableEq

instance : BEq SourceType := ⟨fun a b => decide (a = b)⟩

instance : LawfulBEq SourceType where
  eq_of_beq h := of_decide_eq_true h
  rfl := by intro a; exact decide_eq_true rfl

/-- Source type of an alias entry: built-in table, FHIR server, or aliases.json file. -/
inductive AliasSourceType where
  | builtIn
  | server
  | file
  deriving Repr, DecidableEq

instance : BEq AliasSourceType := ⟨fun a b => decide (a = b)⟩

instance : LawfulBEq AliasSourceType where
  eq_of_beq h := of_decide_eq_true h
  rfl := by intro a; exact decide_eq_true rfl

/-- Revision metadata of a server resource (meta.versionId / meta.lastUpdated). -/
structure RevMeta where
  versionId : Option String
  lastUpdated : Option String
  deriving Repr, DecidableEq

/-- A user mapping entry as cached by the provider. -/
structure UserMapping where
  key : String
  expression : String
  sourceType : SourceType
  source : String
  name : Option String
  url : Option String
  deriving Repr, DecidableEq

/-- A merged alias entry with per-alias metadata. -/
structure AliasWithMetadata where
  value : String
  sourceType : AliasSourceType
  source : String
  deriving Repr, DecidableEq

/-- A JSON value as far as alias filtering needs it: a string, or anything else. -/
inductive JsonLite where
  | str (s : String)
  | other
  deriving Repr, DecidableEq

/-- Association-list lookup of the value stored under a key (first match). -/
def getv {α : Type} (l : List (String × α)) (k : String) : Option α :=
  match l with
  | [] => none
  | p :: rest => if p.1 == k then some p.2 else getv rest k

/-- Does the association list hold an entry for the key. -/
def containsKey {α : Type} (l : List (String × α)) (k : String) : Bool :=
  l.any (fun p => p.1 == k)

/-- JS Map.set / object property-set semantics: replace the existing entry in
place, otherwise append the new entry at the end. -/
def setk {α : Type} : List (String × α) → String → α → List (String × α)
  | [], k, v => [(k, v)]
  | p :: rest, k, v => if p.1 == k then (k, v) :: rest else p :: setk rest k v

/-- JS Map.delete / delete-property semantics: remove the entry for the key. -/
def delk {α : Type} : List (String × α) → String → List (String × α)
  | [], _ => []
  | p :: rest, k => if p.1 == k then delk rest k else p :: delk rest k

/-- The keys of the association list, in insertion order. -/
def keysOf {α : Type} (l : List (String × α)) : List String :=
  l.map (fun p => p.1)

/-- Lowercasing as used by the source via toLowerCase, on the character data. -/
def jsToLower (s : String) : String :=
  ⟨s.data.map Char.toLower⟩

/-- Suffix test on strings via their character data, as used by endsWith. -/
def strEndsWith (s suffix : String) : Bool :=
  s.data.drop (s.data.length - suffix.data.length) == suffix.data

/-- Prefix-dot test on a string, as used by startsWith applied to a dot. -/
def startsWithDot (s : String) : Bool :=
  match s.data with
  | c :: _ => c == '.'
  | [] => false

/-- Whitespace as far as trimming needs it. -/
def isJsWhitespace (c : Char) : Bool :=
  c == ' ' || c == '\t' || c == '\n' || c == '\r'

/-- Whitespace trimming at both ends, as used by the source via trim. -/
def jsTrim (s : String) : String :=
  ⟨((s.data.dropWhile isJsWhitespace).reverse.dropWhile isJsWhitespace).reverse⟩

/-- Removal of one trailing slash, as in the replace of a trailing-slash regex. -/
def dropTrailingSlash (s : String) : String :=
  match s.data.getLast? with
  | some '/' => ⟨s.data.dropLast⟩
  | _ => s

/-- Validity of one character for the alias-key pattern of letters, digits and
underscore. -/
def isAliasKeyChar (c : Char) : Bool :=
  ('A' ≤ c && c ≤ 'Z') || ('a' ≤ c && c ≤ 'z') || ('0' ≤ c && c ≤ '9') || c == '_'

/-- The ALIAS_KEY_REGEX test: one or more characters, all letters, digits or
underscore. -/
def aliasKeyValid (s : String) : Bool :=
  !s.data.isEmpty && s.data.all isAliasKeyChar

/-- The builtInAliases table, transcribed from builtInAliases.ts. -/
def builtInAliases : List (String × String) :=
  [ ("exampleMrn", "http://this.is.an.example.uri/mrn"),
    ("ucum", "http://unitsofmeasure.org"),
    ("loinc", "http://loinc.org"),
    ("sct", "http://snomed.info/sct"),
    ("urn", "urn:ietf:rfc:3986"),
    ("ssn", "http://hl7.org/fhir/sid/us-ssn"),
    ("passportPrefix", "http://hl7.org/fhir/sid/passport-"),
    ("extDar", "http://hl7.org/fhir/StructureDefinition/data-absent-reason"),
    ("extLanguage", "http://hl7.org/fhir/StructureDefinition/language"),
    ("extGeolocation", "http://hl7.org/fhir/StructureDefinition/geolocation"),
    ("extStreetName", "http://hl7.org/fhir/StructureDefinition/iso21090-ADXP-streetName"),
    ("extHouseNumber", "http://hl7.org/fhir/StructureDefinition/iso21090-ADXP-houseNumber"),
    ("extApartment", "http://hl7.org/fhir/StructureDefinition/iso21090-ADXP-unitID") ]

/-- Configuration fields of FumeMappingProvider that the reconciliation core
reads: the mappings folder (when configured), whether a fhirClient is
configured, its base URL, and a pinned alias ConceptMap id. -/
structure Cfg where
  mappingsFolder : Option String
  hasFhirClient : Bool
  baseUrl : Option String
  aliasConceptMapId : Option String
  deriving Repr, DecidableEq

/-- The mutable state of FumeMappingProvider that reconciliation touches. -/
structure PState where
  cfg : Cfg
  userMappingsCache : List (String × UserMapping)
  jsonMappingRawCache : List (String × String)
  serverMappingsMeta : List (String × RevMeta)
  serverAliases : List (String × String)
  fileAliases : List (String × String)
  aliasResourceId : Option String
  aliasResourceMeta : Option RevMeta
  aliasesCacheWithMetadata : List (String × AliasWithMetadata)
  deriving Repr, DecidableEq

/-- A collision warning, as logged when a higher-precedence source overwrites a
lower-precedence one: it names the colliding key and both source types. -/
structure CollisionWarning where
  key : String
  higherSource : String
  lowerSource : String
  deriving Repr, DecidableEq

/-- Reason an alias entry is skipped by validation. -/
inductive AliasSkipReason where
  | invalidKey
  | nonString
  deriving Repr, DecidableEq

/-- A warning logged when an alias entry is skipped by validation. -/
structure AliasSkipWarning where
  key : String
  reason : AliasSkipReason
  deriving Repr, DecidableEq

/-- Result of AliasProvider.loadAliasesWithMetadata: the alias object together
with the resource id and revision metadata of the source ConceptMap.  The
catch clauses of the source return the empty result. -/
structure AliasLoadResult where
  aliases : List (String × JsonLite)
  resourceId : Option String
  meta : Option RevMeta
  deriving Repr, DecidableEq

/-- The value every catch clause of loadAliasesWithMetadata returns: empty
aliases, no resource id, no metadata. -/
def aliasLoadFailureResult : AliasLoadResult :=
  { aliases := [], resourceId := none, meta := none }

/-- Outcome of reading and parsing the aliases.json file. -/
inductive FileAliasesSource where
  | missing
  | readFailure
  | parseFailure
  | notObject
  | obj (entries : List (String × JsonLite))
  deriving Repr, DecidableEq

/-- Response of a conditional read for a server StructureMap, as produced by
UserMappingProvider.conditionalReadServerMapping.  Status 0 stands for the
catch clause and for skipped reads. -/
structure CondMappingResponse where
  status : Nat
  mapping : Option UserMapping
  meta : Option RevMeta
  deriving Repr, DecidableEq

/-- Response of a conditional read for the alias ConceptMap, as produced by
AliasProvider.conditionalReadAliases. -/
structure AliasCondResponse where
  status : Nat
  aliases : Option (List (String × JsonLite))
  resourceId : Option String
  meta : Option RevMeta
  deriving Repr, DecidableEq

/-- The isJsonFileMapping test: file-sourced and the source path ends in the
JSON extension after lowercasing. -/
def isJsonFileMapping (m : UserMapping) : Bool :=
  m.sourceType == SourceType.file && strEndsWith (jsToLower m.source) ".json"

/-- The deprecated UserMappingProvider.loadJsonFileMapping: JSON files are no
longer treated as mappings, so it always returns null. -/
def loadJsonFileMapping (key : String) : Option UserMapping :=
  none

/-- The deprecated UserMappingProvider.readJsonFileRaw: JSON files are no
longer treated as mappings, so it always returns null and never reads disk. -/
def readJsonFileRaw (key : String) : Option String :=
  none

/-- FumeMappingProvider.mappingsEquivalent: metadata fields must agree; for a
JSON file mapping the raw serialized contents are compared (false when either
raw string is unavailable); otherwise the expression strings are compared. -/
def mappingsEquivalent (rawCache : List (String × String))
    (existing incoming : UserMapping) (incomingJsonRaw : Option String) : Bool :=
  if !(existing.sourceType == incoming.sourceType) then false
  else if !(existing.source == incoming.source) then false
  else if !(existing.name == incoming.name) then false
  else if !(existing.url == incoming.url) then false
  else if isJsonFileMapping incoming then
    match getv rawCache existing.key, incomingJsonRaw with
    | some a, some b => a == b
    | _, _ => false
  else existing.expression == incoming.expression

/-- FumeMappingProvider.applySingleMappingUpdate: store the incoming mapping
unless an equivalent entry is cached; maintain the raw-JSON cache beside it. -/
def applySingleMappingUpdate (st : PState) (key : String) (m : UserMapping)
    (jsonRaw : Option String) : PState :=
  let shouldUpdate :=
    match getv st.userMappingsCache key with
    | none => true
    | some existing => !(mappingsEquivalent st.jsonMappingRawCache existing m jsonRaw)
  let cache1 := if shouldUpdate then setk st.userMappingsCache key m else st.userMappingsCache
  let raw1 :=
    if isJsonFileMapping m then
      match jsonRaw with
      | some r => setk st.jsonMappingRawCache key r
      | none => st.jsonMappingRawCache
    else delk st.jsonMappingRawCache key
  { st with userMappingsCache := cache1, jsonMappingRawCache := raw1 }

/-- Upsert phase of FumeMappingProvider.applyMappingsIncrementally: each target
entry is pushed through applySingleMappingUpdate with its raw JSON string. -/
def upsertPass (st : PState) (mappings : List (String × UserMapping))
    (raws : List (String × String)) : PState :=
  mappings.foldl (fun s p => applySingleMappingUpdate s p.1 p.2 (getv raws p.1)) st

/-- One iteration of the deletion loop of applyMappingsIncrementally: a cached
key absent from the target state is removed from all three stores. -/
def deletionStep (mappings : List (String × UserMapping)) (s : PState) (k : String) : PState :=
  if containsKey mappings k then s
  else { s with
    userMappingsCache := delk s.userMappingsCache k,
    jsonMappingRawCache := delk s.jsonMappingRawCache k,
    serverMappingsMeta := delk s.serverMappingsMeta k }

/-- FumeMappingProvider.applyMappingsIncrementally: upsert every target entry,
then delete every cached key missing from the target state. -/
def applyMappingsIncrementally (st : PState) (mappings : List (String × UserMapping))
    (raws : List (String × String)) : PState :=
  let st1 := upsertPass st mappings raws
  (keysOf st1.userMappingsCache).foldl (deletionStep mappings) st1

/-- One iteration of the file layer of UserMappingProvider.loadMappings: warn
when the key is already present, then overwrite. -/
def mappingFileStep (a : List (String × UserMapping) × List CollisionWarning)
    (p : String × UserMapping) :
    List (String × UserMapping) × List CollisionWarning :=
  let ws := if containsKey a.1 p.1 then a.2 ++ [⟨p.1, "file", "server"⟩] else a.2
  (setk a.1 p.1 p.2, ws)

/-- UserMappingProvider.loadMappings: server mappings first, then file mappings
override them, warning on each key collision. -/
def loadMappingsW (hasClient hasFolder : Bool)
    (serverView fileView : List (String × UserMapping)) :
    List (String × UserMapping) × List CollisionWarning :=
  let m1 := if hasClient then serverView.foldl (fun acc p => setk acc p.1 p.2) [] else []
  if hasFolder then fileView.foldl mappingFileStep (m1, [])
  else (m1, [])

/-- FumeMappingProvider.readJsonRawForMappings: collect the raw JSON file
contents of every JSON file mapping.  Since readJsonFileRaw is deprecated and
always returns null, nothing is ever collected. -/
def readJsonRawForMappings (mappings : List (String × UserMapping)) : List (String × String) :=
  mappings.foldl (fun acc p =>
    if isJsonFileMapping p.2 then
      match readJsonFileRaw p.1 with
      | some r => setk acc p.1 r
      | none => acc
    else acc) []

/-- FumeMappingProvider.refreshUserMappingsFromSources: load the full target
state through loadMappings, read raw JSON contents, and apply incrementally.
The per-source views stand for what loadServerMappings and loadFileMappings
returned on this run; a failed source read yields an empty view via the catch
clauses of the provider. -/
def refreshUserMappingsFromSources (st : PState)
    (serverView fileView : List (String × UserMapping)) : PState :=
  let mappings := (loadMappingsW st.cfg.hasFhirClient st.cfg.mappingsFolder.isSome
    serverView fileView).1
  applyMappingsIncrementally st mappings (readJsonRawForMappings mappings)

/-- One iteration of FumeMappingProvider.filterInvalidAliases: skip an entry
with a warning when its key fails the alias-key pattern or its value is not a
string, otherwise keep it. -/
def aliasFilterStep (a : List (String × String) × List AliasSkipWarning)
    (p : String × JsonLite) :
    List (String × String) × List AliasSkipWarning :=
  if !(aliasKeyValid p.1) then (a.1, a.2 ++ [⟨p.1, AliasSkipReason.invalidKey⟩])
  else
    match p.2 with
    | JsonLite.str s => (setk a.1 p.1 s, a.2)
    | JsonLite.other => (a.1, a.2 ++ [⟨p.1, AliasSkipReason.nonString⟩])

/-- FumeMappingProvider.filterInvalidAliases: drop entries whose key fails the
alias-key pattern or whose value is not a string, warning for each. -/
def filterInvalidAliasesW (input : List (String × JsonLite)) :
    List (String × String) × List AliasSkipWarning :=
  input.foldl aliasFilterStep ([], [])

/-- FumeMappingProvider.loadFileAliases: a missing, unreadable, unparsable or
non-object aliases.json yields no file aliases; an object is filtered entry by
entry with the same key and string-value validation. -/
def loadFileAliasesW (src : FileAliasesSource) :
    List (String × String) × List AliasSkipWarning :=
  match src with
  | FileAliasesSource.missing => ([], [])
  | FileAliasesSource.readFailure => ([], [])
  | FileAliasesSource.parseFailure => ([], [])
  | FileAliasesSource.notObject => ([], [])
  | FileAliasesSource.obj entries => filterInvalidAliasesW entries

/-- FumeMappingProvider.getServerAliasSourceString: base URL without trailing
slash, plus the ConceptMap path and resource id when available. -/
def getServerAliasSourceString (st : PState) : String :=
  let baseUrl := if st.cfg.hasFhirClient then st.cfg.baseUrl.getD "" else ""
  let normalizedBase := dropTrailingSlash baseUrl
  match st.aliasResourceId with
  | some id => if normalizedBase == "" then "server" else normalizedBase ++ "/ConceptMap/" ++ id
  | none => if normalizedBase == "" then "server" else normalizedBase ++ "/ConceptMap"

/-- FumeMappingProvider.getFileAliasSourceString: the absolute path of the
aliases.json file inside the mappings folder, or the plain file label. -/
def getFileAliasSourceString (st : PState) : String :=
  match st.cfg.mappingsFolder with
  | none => "file"
  | some folder => folder ++ "/aliases.json"

/-- Layering of one source view onto a merged alias cache: every entry is set
with the given source type and source string, overwriting silently. -/
def aliasLayerFold (stype : AliasSourceType) (src : String)
    (view : List (String × String)) (acc : List (String × AliasWithMetadata)) :
    List (String × AliasWithMetadata) :=
  view.foldl (fun a p => setk a p.1 ⟨p.2, stype, src⟩) acc

/-- One iteration of the file layer of FumeMappingProvider.buildAliasesCache:
warn (when logging is on) whenever the entry being overwritten is
server-sourced, then overwrite. -/
def fileLayerStep (logCollisions : Bool) (src : String)
    (a : List (String × AliasWithMetadata) × List CollisionWarning)
    (p : String × String) :
    List (String × AliasWithMetadata) × List CollisionWarning :=
  let isServerCollision :=
    match getv a.1 p.1 with
    | some existing => existing.sourceType == AliasSourceType.server
    | none => false
  let ws := if isServerCollision && logCollisions then a.2 ++ [⟨p.1, "file", "server"⟩]
    else a.2
  (setk a.1 p.1 ⟨p.2, AliasSourceType.file, src⟩, ws)

/-- FumeMappingProvider.buildAliasesCache: layer built-in aliases, then server
aliases, then file aliases; warn (when logging is on) whenever a file alias
overwrites an entry whose current source type is server. -/
def buildAliasesCacheW (st : PState) (logCollisions : Bool) :
    List (String × AliasWithMetadata) × List CollisionWarning :=
  let merged0 := aliasLayerFold AliasSourceType.builtIn "builtIn" builtInAliases []
  let merged1 := aliasLayerFold AliasSourceType.server (getServerAliasSourceString st)
    st.serverAliases merged0
  st.fileAliases.foldl (fileLayerStep logCollisions (getFileAliasSourceString st))
    (merged1, [])

/-- FumeMappingProvider.areAliasCachesEqual: same size, and every entry of the
first cache matches the entry of the second in value, source type and source. -/
def areAliasCachesEqual (a b : List (String × AliasWithMetadata)) : Bool :=
  (a.length == b.length) && a.all (fun p =>
    match getv b p.1 with
    | none => false
    | some other =>
      p.2.value == other.value && p.2.sourceType == other.sourceType &&
        p.2.source == other.source)

/-- FumeMappingProvider.rebuildAliasesCacheIfChanged: recompute the merged
alias cache and replace the stored one only when they differ. -/
def rebuildAliasesCacheIfChanged (st : PState) : PState :=
  let nextCache := (buildAliasesCacheW st false).1
  if areAliasCachesEqual st.aliasesCacheWithMetadata nextCache then st
  else { st with aliasesCacheWithMetadata := (buildAliasesCacheW st true).1 }

/-- FumeMappingProvider.refreshAliasesFromSources: when a fhirClient is
configured, replace the server aliases, resource id and metadata from the load
result; when a mappings folder is configured, replace the file aliases from
aliases.json; then rebuild the merged cache if changed. -/
def refreshAliasesFromSources (st : PState) (serverLoad : AliasLoadResult)
    (fileSrc : FileAliasesSource) : PState :=
  let st1 := if st.cfg.hasFhirClient then
      { st with
        serverAliases := (filterInvalidAliasesW serverLoad.aliases).1,
        aliasResourceId := serverLoad.resourceId,
        aliasResourceMeta := serverLoad.meta }
    else st
  let st2 := if st1.cfg.mappingsFolder.isSome then
      { st1 with fileAliases := (loadFileAliasesW fileSrc).1 }
    else st1
  rebuildAliasesCacheIfChanged st2

/-- Removal of a mapping key from the user-mapping cache, the raw-JSON cache
and the server revision metadata, as done by the delete branches of
refreshUserMapping. -/
def deleteMappingKey (st : PState) (key : String) : PState :=
  { st with
    userMappingsCache := delk st.userMappingsCache key,
    jsonMappingRawCache := delk st.jsonMappingRawCache key,
    serverMappingsMeta := delk st.serverMappingsMeta key }

/-- FumeMappingProvider.refreshUserMapping: file sources take precedence (the
deprecated JSON file branch never fires); with no fhirClient the key is
dropped; otherwise the conditional-read response decides: 304 keeps the cache,
200 with a mapping upserts it (storing revision metadata first), 200 without a
mapping or 404 or 410 deletes the key, anything else keeps the cache. -/
def refreshUserMappingStep (st : PState) (key : String)
    (fileRead : Option UserMapping) (resp : CondMappingResponse) :
    PState × Option UserMapping :=
  let serverPhase : PState × Option UserMapping :=
    if !st.cfg.hasFhirClient then (deleteMappingKey st key, none)
    else if resp.status == 304 then (st, getv st.userMappingsCache key)
    else if resp.status == 200 then
      match resp.mapping with
      | some m =>
        let st1 := match resp.meta with
          | some meta => { st with serverMappingsMeta := setk st.serverMappingsMeta key meta }
          | none => st
        (applySingleMappingUpdate st1 key m none, some m)
      | none => (deleteMappingKey st key, none)
    else if resp.status == 404 || resp.status == 410 then (deleteMappingKey st key, none)
    else (st, getv st.userMappingsCache key)
  if st.cfg.mappingsFolder.isSome then
    match loadJsonFileMapping key with
    | some jm => (applySingleMappingUpdate st key jm (readJsonFileRaw key), some jm)
    | none =>
      match fileRead with
      | some fm => (applySingleMappingUpdate st key fm none, some fm)
      | none => serverPhase
  else serverPhase

/-- The mapping loop of FumeMappingProvider.pollServerResources: every search
result is applied through applySingleMappingUpdate after storing its revision
metadata; the loop never deletes anything. -/
def serverPollMappingsApply (st : PState)
    (results : List (String × UserMapping × Option RevMeta)) : PState :=
  results.foldl (fun s r =>
    let s1 := match r.2.2 with
      | some meta => { s with serverMappingsMeta := setk s.serverMappingsMeta r.1 meta }
      | none => s
    applySingleMappingUpdate s1 r.1 r.2.1 none) st

/-- The not-found branch of the alias poll: the remembered resource identity is
cleared only when no aliasConceptMapId was configured. -/
def aliasNotFoundClear (st : PState) : PState :=
  if st.cfg.aliasConceptMapId.isSome then st
  else { st with aliasResourceId := none, aliasResourceMeta := none }

/-- The alias branch of FumeMappingProvider.pollServerResources when a resource
id is remembered: 200 with a body replaces the server aliases and metadata and
rebuilds the merged cache if changed; 404 or 410 clears an auto-discovered
identity and reloads aliases from all sources; anything else changes nothing. -/
def aliasPollStep (st : PState) (resp : AliasCondResponse)
    (reloadServer : AliasLoadResult) (reloadFile : FileAliasesSource) : PState :=
  if resp.status == 200 then
    match resp.aliases with
    | some aliases =>
      let st1 := { st with
        serverAliases := (filterInvalidAliasesW aliases).1,
        aliasResourceId := match resp.resourceId with
          | some id => some id
          | none => st.aliasResourceId,
        aliasResourceMeta := resp.meta }
      rebuildAliasesCacheIfChanged st1
    | none => st
  else if resp.status == 404 || resp.status == 410 then
    refreshAliasesFromSources (aliasNotFoundClear st) reloadServer reloadFile
  else st

/-- The JSON branch of FumeMappingProvider.pollFileMappings for a file whose
fingerprint changed: re-read the raw contents (always null since
readJsonFileRaw is deprecated) and refresh only when a fresh raw string
differs from the cached one. -/
def pollFileJsonStep (st : PState) (key : String)
    (fileRead : Option UserMapping) (resp : CondMappingResponse) : PState :=
  match readJsonFileRaw key with
  | none => st
  | some raw =>
    if !(some raw == getv st.jsonMappingRawCache key) then
      let st1 := { st with jsonMappingRawCache := setk st.jsonMappingRawCache key raw }
      (refreshUserMappingStep st1 key fileRead resp).1
    else st

/-- The text-mapping branch of FumeMappingProvider.pollFileMappings for a file
whose fingerprint changed: reload the file mapping and store it only when it is
not equivalent to the cached entry; when the file cannot be loaded, fall back
to a focused refresh. -/
def pollFileTextStep (st : PState) (key : String)
    (fileMappingRead : Option UserMapping) (respForRefresh : CondMappingResponse) : PState :=
  match fileMappingRead with
  | some fm =>
    match getv st.userMappingsCache key with
    | some existing =>
      if !(mappingsEquivalent st.jsonMappingRawCache existing fm none) then
        applySingleMappingUpdate st key fm none
      else st
    | none => applySingleMappingUpdate st key fm none
  | none => (refreshUserMappingStep st key none respForRefresh).1

/-- FumeMappingProvider.forcedResync: full reload of the user mappings from all
sources followed by a full reload of the aliases from all sources. -/
def forcedResyncStep (st : PState) (serverView fileView : List (String × UserMapping))
    (aliasLoad : AliasLoadResult) (fileAliasSrc : FileAliasesSource) : PState :=
  refreshAliasesFromSources (refreshUserMappingsFromSources st serverView fileView)
    aliasLoad fileAliasSrc

/-- Failure cases of the UserMappingProvider constructor. -/
inductive CtorFailure where
  | emptyExtension
  | jsonReserved
  deriving Repr, DecidableEq

/-- FumeMappingProvider.validateConfig: an absent or empty fileExtension
passes; otherwise the trimmed, lowercased extension must not be the reserved
JSON extension, with or without the leading dot. -/
def fumeValidateConfigThrows (fileExtension : Option String) : Bool :=
  match fileExtension with
  | none => false
  | some s =>
    if s == "" then false
    else
      let ext := jsToLower (jsTrim s)
      ext == ".json" || ext == "json"

/-- The UserMappingProvider constructor: default the extension to the fume
extension, reject a whitespace-only extension, normalize by lowercasing and
prepending a dot when missing, and reject the reserved JSON extension. -/
def userProviderCtorFailure (fileExtension : Option String) : Option CtorFailure :=
  let rawExt := fileExtension.getD ".fume"
  let trimmed := jsTrim rawExt
  if trimmed == "" then some CtorFailure.emptyExtension
  else
    let normalized := if startsWithDot trimmed then jsToLower trimmed
      else "." ++ jsToLower trimmed
    if normalized == ".json" then some CtorFailure.jsonReserved else none

/-- Construction of FumeMappingProvider as far as the reserved-JSON rejection
is concerned: validateConfig runs first, then initializeProviders constructs a
UserMappingProvider when a mappings folder or a fhirClient is configured. -/
def constructionJsonReservedThrow (mappingsFolder : Option String) (hasClient : Bool)
    (fileExtension : Option String) : Bool :=
  if fumeValidateConfigThrows fileExtension then true
  else if mappingsFolder.isSome || hasClient then
    userProviderCtorFailure fileExtension == some CtorFailure.jsonReserved
  else false

/-- Restatement of the reserved-extension rule in the words of the
specification: construction throws exactly when the supplied extension,
trimmed and lowercased, is the JSON extension with or without its dot. -/
def jsonReservedSpec (fileExtension : Option String) : Bool :=
  match fileExtension with
  | none => false
  | some s => jsToLower (jsTrim s) == ".json" || jsToLower (jsTrim s) == "json"

section AListLemmas

variable {α : Type}

theorem getv_eq_none_of_not_contains {l : List (String × α)} {k : String}
    (h : containsKey l k = false) : getv l k = none := by
  induction l with
  | nil => rfl
  | cons p rest ih =>
    simp only [containsKey, List.any_cons, Bool.or_eq_false_iff] at h
    rw [getv, if_neg (by simp [h.1])]
    exact ih h.2

theorem getv_isSome_eq_containsKey (l : List (String × α)) (k : String) :
    (getv l k).isSome = containsKey l k := by
  induction l with
  | nil => rfl
  | cons p rest ih =>
    cases hp : (p.1 == k) with
    | true => simp [getv, containsKey, hp]
    | false => simp [getv, containsKey, hp, ih]

theorem getv_setk_self (l : List (String × α)) (k : String) (v : α) :
    getv (setk l k v) k = some v := by
  induction l with
  | nil => simp [setk, getv]
  | cons p rest ih =>
    cases hp : (p.1 == k) with
    | true => simp [setk, hp, getv]
    | false => simp [setk, hp, getv, ih]

theorem getv_setk_ne {k' k : String} (l : List (String × α)) (v : α) (h : k' ≠ k) :
    getv (setk l k v) k' = getv l k' := by
  have hk : (k == k') = false := by simp [Ne.symm h]
  induction l with
  | nil => simp [setk, getv, hk]
  | cons p rest ih =>
    cases hp : (p.1 == k) with
    | true =>
      have hp1 : p.1 = k := by simpa using hp
      simp [setk, hp, getv, hk, hp1, Ne.symm h]
    | false =>
      cases hpk : (p.1 == k') with
      | true => simp [setk, hp, getv, hpk]
      | false => simp [setk, hp, getv, hpk, ih]

theorem getv_setk (l : List (String × α)) (k k' : String) (v : α) :
    getv (setk l k v) k' = if k' = k then some v else getv l k' := by
  by_cases h : k' = k
  · subst h; simp [getv_setk_self]
  · simp [h, getv_setk_ne l v h]

theorem getv_delk (l : List (String × α)) (k k' : String) :
    getv (delk l k) k' = if k' = k then none else getv l k' := by
  induction l with
  | nil => simp [delk, getv]
  | cons p rest ih =>
    cases hp : (p.1 == k) with
    | true =>
      have hp1 : p.1 = k := by simpa using hp
      by_cases h : k' = k
      · subst h; simp [delk, hp, ih]
      · simp only [delk, hp, if_pos, ih, if_neg h]
        rw [getv, if_neg (by simp [hp1, Ne.symm h])]
    | false =>
      cases hpk : (p.1 == k') with
      | true =>
        have hp1 : p.1 = k' := by simpa using hpk
        have hne : k' ≠ k := by
          intro hkk; rw [hkk] at hp1; simp [hp1] at hp
        simp [delk, hp, getv, hpk, hne]
      | false => simp [delk, hp, getv, hpk, ih]

theorem containsKey_eq_false_iff {l : List (String × α)} {k : String} :
    containsKey l k = false ↔ ∀ p ∈ l, p.1 ≠ k := by
  simp [containsKey, List.any_eq_false]

theorem containsKey_eq_true_iff {l : List (String × α)} {k : String} :
    containsKey l k = true ↔ ∃ p ∈ l, p.1 = k := by
  simp [containsKey, List.any_eq_true]

end AListLemmas

theorem normalizedJson_imp {t : String}
    (h : (if startsWithDot t then jsToLower t else "." ++ jsToLower t) = ".json") :
    jsToLower t = ".json" ∨ jsToLower t = "json" := by
  by_cases hd : startsWithDot t
  · rw [if_pos hd] at h
    exact Or.inl h
  · rw [if_neg hd] at h
    right
    have hdata := congrArg String.data h
    rw [String.data_append] at hdata
    simp at hdata
    exact String.ext hdata

/-- C9: constructing the provider with the reserved JSON extension as the
mapping fileExtension throws, with the reserved extension recognized
case-insensitively and ignoring surrounding whitespace, with or without the
leading dot; construction with any other extension, or none, never raises the
reserved-extension error. -/
theorem C9_json_extension_reserved (folder : Option String) (hasClient : Bool)
    (fe : Option String) :
    constructionJsonReservedThrow folder hasClient fe = jsonReservedSpec fe := by
  cases fe with
  | none =>
    have h1 : fumeValidateConfigThrows none = false := rfl
    have h2 : (userProviderCtorFailure none == some CtorFailure.jsonReserved) = false := by
      decide
    simp [constructionJsonReservedThrow, h1, h2, jsonReservedSpec]
  | some s =>
    by_cases hempty : s = ""
    · subst hempty
      have h1 : fumeValidateConfigThrows (some "") = false := rfl
      have h2 : (userProviderCtorFailure (some "") == some CtorFailure.jsonReserved) = false := by
        decide
      have h3 : jsonReservedSpec (some "") = false := by decide
      simp [constructionJsonReservedThrow, h1, h2, h3]
    · have hbeq : (s == "") = false := by simp [hempty]
      have hval : fumeValidateConfigThrows (some s) = jsonReservedSpec (some s) := by
        simp [fumeValidateConfigThrows, jsonReservedSpec, hbeq]
      by_cases hspec : jsonReservedSpec (some s) = true
      · simp [constructionJsonReservedThrow, hval, hspec]
      · have hspec' : jsonReservedSpec (some s) = false := by
          simpa using hspec
        have hnojson : (jsToLower (jsTrim s) == ".json") = false ∧
            (jsToLower (jsTrim s) == "json") = false := by
          have := hspec'
          simp only [jsonReservedSpec, Bool.or_eq_false_iff] at this
          exact this
        have hctor : (userProviderCtorFailure (some s) == some CtorFailure.jsonReserved)
            = false := by
          unfold userProviderCtorFailure
          simp only [Option.getD]
          by_cases htr : (jsTrim s == "") = true
          · simp [htr]
          · have htr' : (jsTrim s == "") = false := by simpa using htr
            simp only [htr', Bool.false_eq_true, if_neg, not_false_iff]
            by_cases hnorm : (if startsWithDot (jsTrim s) then jsToLower (jsTrim s)
                else "." ++ jsToLower (jsTrim s)) = ".json"
            · exfalso
              rcases normalizedJson_imp hnorm with h | h
              · have : (jsToLower (jsTrim s) == ".json") = true := by simp [h]
                rw [this] at hnojson
                exact absurd hnojson.1 (by simp)
              · have : (jsToLower (jsTrim s) == "json") = true := by simp [h]
                rw [this] at hnojson
                exact absurd hnojson.2 (by simp)
            · have : ((if startsWithDot (jsTrim s) then jsToLower (jsTrim s)
                  else "." ++ jsToLower (jsTrim s)) == ".json") = false := by
                simpa using hnorm
              simp [this]
        simp [constructionJsonReservedThrow, hval, hspec', hctor]

/-- Configuration with both a mappings folder and a fhirClient. -/
def cfgBoth : Cfg :=
  { mappingsFolder := some "/maps", hasFhirClient := true,
    baseUrl := some "http://srv/fhir", aliasConceptMapId := none }

/-- A file-sourced mapping for the key alpha. -/
def fileMappingAlpha : UserMapping :=
  { key := "alpha", expression := "X", sourceType := SourceType.file,
    source := "/maps/alpha.fume", name := none, url := none }

/-- A server-sourced mapping for the same key alpha. -/
def serverMappingAlpha : UserMapping :=
  { key := "alpha", expression := "Y", sourceType := SourceType.server,
    source := "http://srv/fhir/StructureMap/alpha", name := none, url := none }

/-- A state whose mapping cache holds the file-sourced view of alpha. -/
def stAlphaFile : PState :=
  { cfg := cfgBoth, userMappingsCache := [("alpha", fileMappingAlpha)],
    jsonMappingRawCache := [], serverMappingsMeta := [], serverAliases := [],
    fileAliases := [], aliasResourceId := some "aliasCm",
    aliasResourceMeta := none, aliasesCacheWithMetadata := [] }

/-- C1: the incremental server-poll mapping path applies every search result
through applySingleMappingUpdate without re-checking whether the file source
currently owns the key.  Evaluated at a state where the cache holds the
file-sourced view of alpha and the filtered search reports a server-sourced
alpha, the poll tick replaces the cached entry with the server view, so the
entry for alpha no longer equals the highest-precedence view that defines it. -/
theorem C1_server_poll_overwrites_file_mapping :
    getv stAlphaFile.userMappingsCache "alpha" = some fileMappingAlpha ∧
    fileMappingAlpha.sourceType = SourceType.file ∧
    getv (serverPollMappingsApply stAlphaFile
        [("alpha", serverMappingAlpha, some ⟨some "2", some "ts"⟩)]).userMappingsCache "alpha"
      = some serverMappingAlpha ∧
    serverMappingAlpha.sourceType = SourceType.server := by
  refine ⟨by decide, rfl, by decide, rfl⟩

theorem refreshStep_304 (st : PState) (key : String)
    (om : Option UserMapping) (ometa : Option RevMeta)
    (hclient : st.cfg.hasFhirClient = true) :
    refreshUserMappingStep st key none ⟨304, om, ometa⟩
      = (st, getv st.userMappingsCache key) := by
  unfold refreshUserMappingStep
  by_cases hf : st.cfg.mappingsFolder.isSome <;>
    simp [hf, loadJsonFileMapping, hclient]

theorem refreshStep_deletes (st : PState) (key : String)
    (om : Option UserMapping) (ometa : Option RevMeta) (n : Nat)
    (hclient : st.cfg.hasFhirClient = true)
    (h304 : (n == 304) = false) (h200 : (n == 200) = false)
    (h404 : ((n == 404) || (n == 410)) = true) :
    refreshUserMappingStep st key none ⟨n, om, ometa⟩
      = (deleteMappingKey st key, none) := by
  unfold refreshUserMappingStep
  by_cases hf : st.cfg.mappingsFolder.isSome <;>
    simp [hf, loadJsonFileMapping, hclient, h304, h200, h404]

theorem aliasPollStep_304 (st : PState) (oal : Option (List (String × JsonLite)))
    (orid : Option String) (ometa : Option RevMeta)
    (reload : AliasLoadResult) (rf : FileAliasesSource) :
    aliasPollStep st ⟨304, oal, orid, ometa⟩ reload rf = st := by
  simp [aliasPollStep]

/-- C6: a conditional read returning not-modified alters nothing: the focused
mapping refresh returns the cached entry with the state untouched, and the
alias poll leaves the state untouched, so neither cached content nor cached
revision metadata changes. -/
theorem C6_not_modified_preserves_cache (st : PState) (key : String)
    (om : Option UserMapping) (ometa : Option RevMeta)
    (oal : Option (List (String × JsonLite))) (orid : Option String)
    (reload : AliasLoadResult) (rf : FileAliasesSource)
    (hclient : st.cfg.hasFhirClient = true) :
    refreshUserMappingStep st key none ⟨304, om, ometa⟩
      = (st, getv st.userMappingsCache key) ∧
    aliasPollStep st ⟨304, oal, orid, ometa⟩ reload rf = st :=
  ⟨refreshStep_304 st key om ometa hclient, aliasPollStep_304 st oal orid ometa reload rf⟩

/-- Witness for C6 at a concrete state. -/
theorem C6_not_modified_preserves_cache_witness :
    stAlphaFile.cfg.hasFhirClient = true ∧
    (refreshUserMappingStep stAlphaFile "alpha" none ⟨304, none, none⟩
        = (stAlphaFile, getv stAlphaFile.userMappingsCache "alpha") ∧
      aliasPollStep stAlphaFile ⟨304, none, none, none⟩ aliasLoadFailureResult
          FileAliasesSource.missing = stAlphaFile) :=
  ⟨rfl, C6_not_modified_preserves_cache stAlphaFile "alpha" none none none none
    aliasLoadFailureResult FileAliasesSource.missing rfl⟩

/-- C7: a conditional read returning not-found or gone removes the key from
the mapping store, the raw-JSON cache and the revision metadata and returns
null; on the alias identity the remembered resource id and metadata are
cleared exactly when no aliasConceptMapId was configured, after which aliases
are re-resolved from all sources through refreshAliasesFromSources. -/
theorem C7_not_found_removes_key (st : PState) (key : String)
    (om : Option UserMapping) (ometa : Option RevMeta)
    (oal : Option (List (String × JsonLite))) (orid : Option String)
    (reload : AliasLoadResult) (rf : FileAliasesSource)
    (hclient : st.cfg.hasFhirClient = true) :
    (getv (refreshUserMappingStep st key none ⟨404, om, ometa⟩).1.userMappingsCache key
        = none ∧
      getv (refreshUserMappingStep st key none ⟨404, om, ometa⟩).1.jsonMappingRawCache key
        = none ∧
      getv (refreshUserMappingStep st key none ⟨404, om, ometa⟩).1.serverMappingsMeta key
        = none ∧
      (refreshUserMappingStep st key none ⟨404, om, ometa⟩).2 = none) ∧
    (getv (refreshUserMappingStep st key none ⟨410, om, ometa⟩).1.userMappingsCache key
        = none ∧
      getv (refreshUserMappingStep st key none ⟨410, om, ometa⟩).1.jsonMappingRawCache key
        = none ∧
      getv (refreshUserMappingStep st key none ⟨410, om, ometa⟩).1.serverMappingsMeta key
        = none ∧
      (refreshUserMappingStep st key none ⟨410, om, ometa⟩).2 = none) ∧
    (aliasNotFoundClear st).aliasResourceId
      = (if st.cfg.aliasConceptMapId.isSome then st.aliasResourceId else none) ∧
    (aliasNotFoundClear st).aliasResourceMeta
      = (if st.cfg.aliasConceptMapId.isSome then st.aliasResourceMeta else none) ∧
    aliasPollStep st ⟨404, oal, orid, ometa⟩ reload rf
      = refreshAliasesFromSources (aliasNotFoundClear st) reload rf ∧
    aliasPollStep st ⟨410, oal, orid, ometa⟩ reload rf
      = refreshAliasesFromSources (aliasNotFoundClear st) reload rf := by
  have h404 := refreshStep_deletes st key om ometa 404 hclient (by decide) (by decide)
    (by decide)
  have h410 := refreshStep_deletes st key om ometa 410 hclient (by decide) (by decide)
    (by decide)
  refine ⟨⟨?_, ?_, ?_, ?_⟩, ⟨?_, ?_, ?_, ?_⟩, ?_, ?_, ?_, ?_⟩
  · rw [h404]; simp [deleteMappingKey, getv_delk]
  · rw [h404]; simp [deleteMappingKey, getv_delk]
  · rw [h404]; simp [deleteMappingKey, getv_delk]
  · rw [h404]
  · rw [h410]; simp [deleteMappingKey, getv_delk]
  · rw [h410]; simp [deleteMappingKey, getv_delk]
  · rw [h410]; simp [deleteMappingKey, getv_delk]
  · rw [h410]
  · unfold aliasNotFoundClear
    by_cases hc : st.cfg.aliasConceptMapId.isSome <;> simp [hc]
  · unfold aliasNotFoundClear
    by_cases hc : st.cfg.aliasConceptMapId.isSome <;> simp [hc]
  · simp [aliasPollStep]
  · simp [aliasPollStep]

/-- Witness for C7 at a concrete state. -/
theorem C7_not_found_removes_key_witness :
    stAlphaFile.cfg.hasFhirClient = true ∧
    getv (refreshUserMappingStep stAlphaFile "alpha" none ⟨404, none, none⟩).1.userMappingsCache
        "alpha" = none :=
  ⟨rfl, (C7_not_found_removes_key stAlphaFile "alpha" none none none none
    aliasLoadFailureResult FileAliasesSource.missing rfl).1.1⟩

/-- Configuration with a fhirClient and no mappings folder. -/
def cfgServerOnly : Cfg :=
  { mappingsFolder := none, hasFhirClient := true,
    baseUrl := some "http://srv/fhir", aliasConceptMapId := none }

/-- A state whose server-alias view holds one alias that also appears in the
merged cache rebuilt from the cached views. -/
def stServerAlias : PState :=
  { cfg := cfgServerOnly,
    userMappingsCache := [], jsonMappingRawCache := [], serverMappingsMeta := [],
    serverAliases := [("srvA", "http://a")], fileAliases := [],
    aliasResourceId := some "aliasCm", aliasResourceMeta := none,
    aliasesCacheWithMetadata := [] }

theorem rebuild_preserves_non_alias_fields (st : PState) :
    (rebuildAliasesCacheIfChanged st).cfg = st.cfg ∧
    (rebuildAliasesCacheIfChanged st).userMappingsCache = st.userMappingsCache ∧
    (rebuildAliasesCacheIfChanged st).jsonMappingRawCache = st.jsonMappingRawCache ∧
    (rebuildAliasesCacheIfChanged st).serverMappingsMeta = st.serverMappingsMeta ∧
    (rebuildAliasesCacheIfChanged st).serverAliases = st.serverAliases ∧
    (rebuildAliasesCacheIfChanged st).fileAliases = st.fileAliases ∧
    (rebuildAliasesCacheIfChanged st).aliasResourceId = st.aliasResourceId ∧
    (rebuildAliasesCacheIfChanged st).aliasResourceMeta = st.aliasResourceMeta := by
  by_cases h : areAliasCachesEqual st.aliasesCacheWithMetadata (buildAliasesCacheW st false).1
    = true <;> simp [rebuildAliasesCacheIfChanged, h]

theorem refreshAliases_server_fields (st : PState) (load : AliasLoadResult)
    (rf : FileAliasesSource) (hclient : st.cfg.hasFhirClient = true) :
    (refreshAliasesFromSources st load rf).serverAliases
      = (filterInvalidAliasesW load.aliases).1 ∧
    (refreshAliasesFromSources st load rf).aliasResourceId = load.resourceId ∧
    (refreshAliasesFromSources st load rf).aliasResourceMeta = load.meta := by
  unfold refreshAliasesFromSources
  simp only [hclient, if_true]
  by_cases hf : st.cfg.mappingsFolder.isSome <;>
    simp [hf, rebuild_preserves_non_alias_fields]

theorem refreshStep_failure_keeps_state (st : PState) (key : String)
    (om : Option UserMapping) (ometa : Option RevMeta)
    (hclient : st.cfg.hasFhirClient = true) :
    refreshUserMappingStep st key none ⟨0, om, ometa⟩
      = (st, getv st.userMappingsCache key) := by
  unfold refreshUserMappingStep
  by_cases hf : st.cfg.mappingsFolder.isSome <;>
    simp [hf, loadJsonFileMapping, hclient]

/-- C5 counterexample: when a full alias reload runs while the server read
fails, the catch clause of loadAliasesWithMetadata yields the empty result and
refreshAliasesFromSources replaces the cached server aliases with it, so a
previously cached server alias is dropped from the state and from the merged
view instead of being retained unchanged. -/
theorem C5_full_reload_failure_drops_server_aliases :
    getv stServerAlias.serverAliases "srvA" = some "http://a" ∧
    getv (buildAliasesCacheW stServerAlias true).1 "srvA"
      = some ⟨"http://a", AliasSourceType.server, "http://srv/fhir/ConceptMap/aliasCm"⟩ ∧
    (refreshAliasesFromSources stServerAlias aliasLoadFailureResult
        FileAliasesSource.missing).serverAliases = [] ∧
    getv (refreshAliasesFromSources stServerAlias aliasLoadFailureResult
        FileAliasesSource.missing).aliasesCacheWithMetadata "srvA" = none := by
  refine ⟨by decide, by decide, by decide, by decide⟩

/-- C5 as amended: a failure during an incremental poll (a conditional read of
a mapping or of the alias ConceptMap ending in the catch status, or a filtered
search yielding nothing) leaves every cached entry unchanged; but a source
failure during a full alias reload yields the empty load result, which
replaces the previously cached server aliases instead of retaining them. -/
theorem C5_amended_failure_handling (st : PState) (key : String)
    (om : Option UserMapping) (ometa : Option RevMeta)
    (oal : Option (List (String × JsonLite))) (orid : Option String)
    (reload : AliasLoadResult) (rf : FileAliasesSource)
    (hclient : st.cfg.hasFhirClient = true) :
    refreshUserMappingStep st key none ⟨0, om, ometa⟩
      = (st, getv st.userMappingsCache key) ∧
    serverPollMappingsApply st [] = st ∧
    aliasPollStep st ⟨0, oal, orid, ometa⟩ reload rf = st ∧
    (refreshAliasesFromSources st aliasLoadFailureResult rf).serverAliases = [] ∧
    (refreshAliasesFromSources st aliasLoadFailureResult rf).aliasResourceId = none := by
  refine ⟨refreshStep_failure_keeps_state st key om ometa hclient, rfl, ?_, ?_, ?_⟩
  · simp [aliasPollStep]
  · exact (refreshAliases_server_fields st aliasLoadFailureResult rf hclient).1
  · exact (refreshAliases_server_fields st aliasLoadFailureResult rf hclient).2.1

/-- Witness for the amended C5 at a concrete state. -/
theorem C5_amended_failure_handling_witness :
    stServerAlias.cfg.hasFhirClient = true ∧
    (refreshAliasesFromSources stServerAlias aliasLoadFailureResult
        FileAliasesSource.missing).serverAliases = [] :=
  ⟨rfl, (C5_amended_failure_handling stServerAlias "alpha" none none none none
    aliasLoadFailureResult FileAliasesSource.missing rfl).2.2.2.1⟩

theorem applySingle_cache_eq (st : PState) (key : String) (m : UserMapping)
    (r : Option String) :
    (applySingleMappingUpdate st key m r).userMappingsCache
      = (if (match getv st.userMappingsCache key with
            | none => true
            | some existing => !(mappingsEquivalent st.jsonMappingRawCache existing m r))
        then setk st.userMappingsCache key m else st.userMappingsCache) := rfl

theorem applySingle_raw_eq (st : PState) (key : String) (m : UserMapping)
    (r : Option String) :
    (applySingleMappingUpdate st key m r).jsonMappingRawCache
      = (if isJsonFileMapping m then
          match r with
          | some rr => setk st.jsonMappingRawCache key rr
          | none => st.jsonMappingRawCache
        else delk st.jsonMappingRawCache key) := rfl

theorem applySingle_meta_eq (st : PState) (key : String) (m : UserMapping)
    (r : Option String) :
    (applySingleMappingUpdate st key m r).serverMappingsMeta = st.serverMappingsMeta := rfl

theorem applySingle_getv_cache_ne (st : PState) (key k : String) (m : UserMapping)
    (r : Option String) (h : k ≠ key) :
    getv (applySingleMappingUpdate st key m r).userMappingsCache k
      = getv st.userMappingsCache k := by
  rw [applySingle_cache_eq]
  split
  · exact getv_setk_ne _ _ h
  · rfl

theorem applySingle_containsKey (st : PState) (key k : String) (m : UserMapping)
    (r : Option String) (h : containsKey st.userMappingsCache k = true) :
    containsKey (applySingleMappingUpdate st key m r).userMappingsCache k = true := by
  rw [applySingle_cache_eq]
  split
  · rw [← getv_isSome_eq_containsKey] at h ⊢
    rw [getv_setk]
    by_cases hk : k = key <;> simp [hk, h]
  · exact h

theorem serverPoll_getv_cache_unreported (results : List (String × UserMapping × Option RevMeta))
    (st : PState) (k : String)
    (h : (results.all fun r => !(r.1 == k)) = true) :
    getv (serverPollMappingsApply st results).userMappingsCache k
      = getv st.userMappingsCache k := by
  induction results generalizing st with
  | nil => rfl
  | cons r rest ih =>
    simp only [List.all_cons, Bool.and_eq_true] at h
    have hne : k ≠ r.1 := by
      intro hk
      rw [hk] at h
      simp at h
    show getv (serverPollMappingsApply _ rest).userMappingsCache k = _
    rw [serverPollMappingsApply] at *
    simp only [List.foldl_cons]
    rw [← serverPollMappingsApply, ih _ h.2]
    cases hm : r.2.2 with
    | some meta =>
      simp only [hm]
      exact applySingle_getv_cache_ne _ _ _ _ _ hne
    | none =>
      simp only [hm]
      exact applySingle_getv_cache_ne _ _ _ _ _ hne

theorem serverPoll_containsKey (results : List (String × UserMapping × Option RevMeta))
    (st : PState) (k : String)
    (h : containsKey st.userMappingsCache k = true) :
    containsKey (serverPollMappingsApply st results).userMappingsCache k = true := by
  induction results generalizing st with
  | nil => exact h
  | cons r rest ih =>
    rw [serverPollMappingsApply] at *
    simp only [List.foldl_cons]
    rw [← serverPollMappingsApply]
    apply ih
    cases hm : r.2.2 with
    | some meta =>
      simp only [hm]
      exact applySingle_containsKey _ _ _ _ _ h
    | none =>
      simp only [hm]
      exact applySingle_containsKey _ _ _ _ _ h

theorem containsKey_setk {α : Type} (l : List (String × α)) (key k : String) (v : α) :
    containsKey (setk l key v) k = (containsKey l k || (k == key)) := by
  rw [← getv_isSome_eq_containsKey, getv_setk]
  by_cases hk : k = key <;> simp [hk, getv_isSome_eq_containsKey]

theorem serverFold_not_contains (view : List (String × UserMapping))
    (acc : List (String × UserMapping)) (k : String)
    (hv : (view.all fun p => !(p.1 == k)) = true)
    (hacc : containsKey acc k = false) :
    containsKey (view.foldl (fun acc p => setk acc p.1 p.2) acc) k = false := by
  induction view generalizing acc with
  | nil => exact hacc
  | cons p rest ih =>
    simp only [List.all_cons, Bool.and_eq_true] at hv
    simp only [List.foldl_cons]
    apply ih _ hv.2
    rw [containsKey_setk, hacc]
    have h1 : (p.1 == k) = false := by simpa using hv.1
    have h2 : (k == p.1) = false := by
      rw [beq_eq_false_iff_ne] at h1 ⊢
      exact Ne.symm h1
    simp [h2]

theorem fileFold_not_contains (view : List (String × UserMapping))
    (acc : List (String × UserMapping) × List CollisionWarning) (k : String)
    (hv : (view.all fun p => !(p.1 == k)) = true)
    (hacc : containsKey acc.1 k = false) :
    containsKey (view.foldl mappingFileStep acc).1 k = false := by
  induction view generalizing acc with
  | nil => exact hacc
  | cons p rest ih =>
    simp only [List.all_cons, Bool.and_eq_true] at hv
    simp only [List.foldl_cons]
    apply ih _ hv.2
    show containsKey (setk acc.1 p.1 p.2) k = false
    rw [containsKey_setk, hacc]
    have h1 : (p.1 == k) = false := by simpa using hv.1
    have h2 : (k == p.1) = false := by
      rw [beq_eq_false_iff_ne] at h1 ⊢
      exact Ne.symm h1
    simp [h2]

theorem loadMappings_not_containsKey (hasClient hasFolder : Bool)
    (serverView fileView : List (String × UserMapping)) (k : String)
    (hs : (serverView.all fun p => !(p.1 == k)) = true)
    (hf : (fileView.all fun p => !(p.1 == k)) = true) :
    containsKey (loadMappingsW hasClient hasFolder serverView fileView).1 k = false := by
  unfold loadMappingsW
  have hm1 : containsKey (if hasClient then
      serverView.foldl (fun acc p => setk acc p.1 p.2) [] else []) k = false := by
    cases hasClient with
    | true => simpa using serverFold_not_contains serverView [] k hs rfl
    | false => rfl
  cases hasFolder with
  | true =>
    simpa using fileFold_not_contains fileView _ k hf (by simpa using hm1)
  | false => simpa using hm1

theorem upsertPass_getv_ne (mappings : List (String × UserMapping)) (st : PState)
    (raws : List (String × String)) (k : String)
    (h : (mappings.all fun p => !(p.1 == k)) = true) :
    getv (upsertPass st mappings raws).userMappingsCache k
      = getv st.userMappingsCache k := by
  induction mappings generalizing st with
  | nil => rfl
  | cons p rest ih =>
    simp only [List.all_cons, Bool.and_eq_true] at h
    have hne : k ≠ p.1 := by
      have h1 : (p.1 == k) = false := by simpa using h.1
      rw [beq_eq_false_iff_ne] at h1
      exact Ne.symm h1
    rw [upsertPass] at *
    simp only [List.foldl_cons]
    rw [← upsertPass, ih _ h.2]
    exact applySingle_getv_cache_ne _ _ _ _ _ hne

theorem deletionFold_preserves_none (mappings : List (String × UserMapping))
    (L : List String) (s : PState) (k : String)
    (h : getv s.userMappingsCache k = none) :
    getv (L.foldl (deletionStep mappings) s).userMappingsCache k = none := by
  induction L generalizing s with
  | nil => exact h
  | cons a rest ih =>
    simp only [List.foldl_cons]
    apply ih
    unfold deletionStep
    split
    · exact h
    · simp only [getv_delk]
      split
      · rfl
      · exact h

theorem deletionFold_getv_none_of_mem (mappings : List (String × UserMapping))
    (L : List String) (s : PState) (k : String)
    (hnc : containsKey mappings k = false) (hmem : k ∈ L) :
    getv (L.foldl (deletionStep mappings) s).userMappingsCache k = none := by
  induction L generalizing s with
  | nil => cases hmem
  | cons a rest ih =>
    simp only [List.foldl_cons]
    rcases List.mem_cons.mp hmem with hk | hk
    · subst hk
      apply deletionFold_preserves_none
      unfold deletionStep
      rw [if_neg (by simp [hnc])]
      simp [getv_delk]
    · exact ih _ hk

theorem mem_keysOf_iff {α : Type} (l : List (String × α)) (k : String) :
    k ∈ keysOf l ↔ containsKey l k = true := by
  simp [keysOf, containsKey_eq_true_iff, List.mem_map]

/-- C4: a mapping deleted directly on the server stays cached through the
incremental server poll, whose filtered search never reports the key and whose
apply loop never deletes any cached key; the next forced full reload computes a
target state that omits the key, and applying it removes the key from the
cache. -/
theorem C4_server_deletion_until_resync (st : PState)
    (results : List (String × UserMapping × Option RevMeta))
    (serverView fileView : List (String × UserMapping)) (k : String)
    (hcached : containsKey st.userMappingsCache k = true)
    (hres : (results.all fun r => !(r.1 == k)) = true)
    (hs : (serverView.all fun p => !(p.1 == k)) = true)
    (hf : (fileView.all fun p => !(p.1 == k)) = true) :
    getv (serverPollMappingsApply st results).userMappingsCache k
      = getv st.userMappingsCache k ∧
    (∀ k', containsKey st.userMappingsCache k' = true →
      containsKey (serverPollMappingsApply st results).userMappingsCache k' = true) ∧
    getv (refreshUserMappingsFromSources st serverView fileView).userMappingsCache k
      = none := by
  refine ⟨serverPoll_getv_cache_unreported results st k hres,
    fun k' h => serverPoll_containsKey results st k' h, ?_⟩
  unfold refreshUserMappingsFromSources applyMappingsIncrementally
  have hnc : containsKey (loadMappingsW st.cfg.hasFhirClient st.cfg.mappingsFolder.isSome
      serverView fileView).1 k = false :=
    loadMappings_not_containsKey _ _ _ _ _ hs hf
  have hall : ((loadMappingsW st.cfg.hasFhirClient st.cfg.mappingsFolder.isSome
      serverView fileView).1.all fun p => !(p.1 == k)) = true := by
    rw [List.all_eq_true]
    intro p hp
    rw [containsKey_eq_false_iff] at hnc
    simp [hnc p hp]
  have hget : getv (upsertPass st (loadMappingsW st.cfg.hasFhirClient
      st.cfg.mappingsFolder.isSome serverView fileView).1
      (readJsonRawForMappings (loadMappingsW st.cfg.hasFhirClient
        st.cfg.mappingsFolder.isSome serverView fileView).1)).userMappingsCache k
      = getv st.userMappingsCache k :=
    upsertPass_getv_ne _ _ _ _ hall
  apply deletionFold_getv_none_of_mem _ _ _ _ hnc
  rw [mem_keysOf_iff, ← getv_isSome_eq_containsKey, hget,
    getv_isSome_eq_containsKey]
  exact hcached

/-- Witness for C4 at a concrete state: the server-sourced beta mapping stays
cached through a poll tick that does not report it and disappears after the
forced reload whose sources omit it. -/
theorem C4_server_deletion_until_resync_witness :
    containsKey stAlphaFile.userMappingsCache "alpha" = true ∧
    getv (refreshUserMappingsFromSources stAlphaFile [] []).userMappingsCache "alpha"
      = none :=
  ⟨by decide, (C4_server_deletion_until_resync stAlphaFile [] [] [] "alpha"
    (by decide) (by decide) (by decide) (by decide)).2.2⟩

theorem getv_some_mem {α : Type} {l : List (String × α)} {k : String} {v : α}
    (h : getv l k = some v) : (k, v) ∈ l := by
  induction l with
  | nil => cases h
  | cons p rest ih =>
    rw [getv] at h
    by_cases hp : (p.1 == k) = true
    · rw [if_pos hp] at h
      have hk : p.1 = k := by simpa using hp
      have hv : p.2 = v := by simpa using h
      have hpv : (k, v) = p := by rw [← hk, ← hv]
      rw [hpv]
      exact List.mem_cons_self p rest
    · rw [if_neg hp] at h
      exact List.mem_cons_of_mem _ (ih h)

theorem mappingsEquivalent_raw_congr (raw1 raw2 : List (String × String))
    (e m : UserMapping) (r : Option String)
    (h : getv raw1 e.key = getv raw2 e.key) :
    mappingsEquivalent raw1 e m r = mappingsEquivalent raw2 e m r := by
  unfold mappingsEquivalent
  rw [h]

theorem upsertFold_cache_eq (mappings : List (String × UserMapping)) (s st : PState)
    (raws : List (String × String))
    (hnd : (keysOf mappings).Nodup)
    (hwk : ∀ k e, getv st.userMappingsCache k = some e → e.key = k)
    (heq : ∀ p ∈ mappings, ∃ e, getv st.userMappingsCache p.1 = some e ∧
      mappingsEquivalent st.jsonMappingRawCache e p.2 (getv raws p.1) = true)
    (hcache : s.userMappingsCache = st.userMappingsCache)
    (hraw : ∀ p ∈ mappings,
      getv s.jsonMappingRawCache p.1 = getv st.jsonMappingRawCache p.1) :
    (upsertPass s mappings raws).userMappingsCache = st.userMappingsCache := by
  induction mappings generalizing s with
  | nil => exact hcache
  | cons p rest ih =>
    rw [upsertPass]
    simp only [List.foldl_cons]
    rw [← upsertPass]
    obtain ⟨e, he, heqv⟩ := heq p (List.mem_cons_self p rest)
    have hekey : e.key = p.1 := hwk _ _ he
    have hex : getv s.userMappingsCache p.1 = some e := by rw [hcache]; exact he
    have hcong : mappingsEquivalent s.jsonMappingRawCache e p.2 (getv raws p.1)
        = mappingsEquivalent st.jsonMappingRawCache e p.2 (getv raws p.1) := by
      apply mappingsEquivalent_raw_congr
      rw [hekey]
      exact hraw p (List.mem_cons_self p rest)
    have hrestne : ∀ q ∈ rest, q.1 ≠ p.1 := by
      intro q hq hqp
      have hp1 : p.1 ∉ keysOf rest := by
        have := hnd
        simp only [keysOf, List.map_cons] at this
        exact (List.nodup_cons.mp this).1
      exact hp1 (by
        rw [← hqp]
        exact List.mem_map_of_mem (fun x => x.1) hq)
    have hstep_cache : (applySingleMappingUpdate s p.1 p.2
        (getv raws p.1)).userMappingsCache = st.userMappingsCache := by
      rw [applySingle_cache_eq, hex]
      simp only [hcong, heqv, Bool.not_true, Bool.false_eq_true, if_neg,
        not_false_iff]
      exact hcache
    refine ih _ ?_ ?_ hstep_cache ?_
    · have := hnd
      simp only [keysOf, List.map_cons] at this ⊢
      exact (List.nodup_cons.mp this).2
    · intro q hq
      exact heq q (List.mem_cons_of_mem p hq)
    · intro q hq
      rw [applySingle_raw_eq]
      have hqp : q.1 ≠ p.1 := hrestne q hq
      have hbase : getv s.jsonMappingRawCache q.1 = getv st.jsonMappingRawCache q.1 :=
        hraw q (List.mem_cons_of_mem p hq)
      split
      · cases hr : getv raws p.1 with
        | some rr => rw [getv_setk_ne _ _ hqp]; exact hbase
        | none => exact hbase
      · rw [getv_delk, if_neg hqp]
        exact hbase

theorem deletionFold_skip (mappings : List (String × UserMapping))
    (L : List String) (s : PState)
    (h : ∀ k ∈ L, containsKey mappings k = true) :
    L.foldl (deletionStep mappings) s = s := by
  induction L with
  | nil => rfl
  | cons a rest ih =>
    simp only [List.foldl_cons]
    rw [deletionStep, if_pos (h a (List.mem_cons_self a rest))]
    exact ih fun k hk => h k (List.mem_cons_of_mem a hk)

/-- C2: whole-scope reconciliation with an unchanged target state performs
zero upserts and zero deletes: when every incoming entry is equivalent to the
cached one under mappingsEquivalent, every cached key is covered by the target
state and the alias caches compare equal, applyMappingsIncrementally returns
the mapping cache unchanged and rebuildAliasesCacheIfChanged returns the state
unchanged without replacing the merged alias object. -/
theorem C2_reconcile_idempotent (st : PState) (mappings : List (String × UserMapping))
    (raws : List (String × String))
    (hnd : (keysOf mappings).Nodup)
    (hwkb : (st.userMappingsCache.all fun p => p.2.key == p.1) = true)
    (heqb : (mappings.all fun p =>
      match getv st.userMappingsCache p.1 with
      | some e => mappingsEquivalent st.jsonMappingRawCache e p.2 (getv raws p.1)
      | none => false) = true)
    (hcov : ((keysOf st.userMappingsCache).all fun k => containsKey mappings k) = true)
    (haliases : areAliasCachesEqual st.aliasesCacheWithMetadata
      (buildAliasesCacheW st false).1 = true) :
    (applyMappingsIncrementally st mappings raws).userMappingsCache
      = st.userMappingsCache ∧
    rebuildAliasesCacheIfChanged st = st := by
  have hwk : ∀ k e, getv st.userMappingsCache k = some e → e.key = k := by
    intro k e hke
    have hmem := getv_some_mem hke
    rw [List.all_eq_true] at hwkb
    simpa using hwkb _ hmem
  have heq : ∀ p ∈ mappings, ∃ e, getv st.userMappingsCache p.1 = some e ∧
      mappingsEquivalent st.jsonMappingRawCache e p.2 (getv raws p.1) = true := by
    intro p hp
    rw [List.all_eq_true] at heqb
    have := heqb p hp
    cases hg : getv st.userMappingsCache p.1 with
    | none => rw [hg] at this; cases this
    | some e =>
      rw [hg] at this
      exact ⟨e, rfl, this⟩
  have hc1 : (upsertPass st mappings raws).userMappingsCache = st.userMappingsCache :=
    upsertFold_cache_eq mappings st st raws hnd hwk heq rfl (fun _ _ => rfl)
  constructor
  · unfold applyMappingsIncrementally
    rw [deletionFold_skip]
    · exact hc1
    · intro k hk
      rw [hc1] at hk
      rw [List.all_eq_true] at hcov
      exact hcov k hk
  · unfold rebuildAliasesCacheIfChanged
    simp only [haliases, if_true]

/-- Base of the idempotence witness state, before its merged alias cache is
filled in. -/
def stIdem0 : PState :=
  { cfg := cfgBoth, userMappingsCache := [("alpha", fileMappingAlpha)],
    jsonMappingRawCache := [], serverMappingsMeta := [], serverAliases := [],
    fileAliases := [], aliasResourceId := none, aliasResourceMeta := none,
    aliasesCacheWithMetadata := [] }

/-- The idempotence witness state: its merged alias cache is exactly the one
built from its source views. -/
def stIdem : PState :=
  { stIdem0 with aliasesCacheWithMetadata := (buildAliasesCacheW stIdem0 true).1 }

/-- Witness for C2 at a concrete state. -/
theorem C2_reconcile_idempotent_witness :
    ((keysOf [("alpha", fileMappingAlpha)]).Nodup ∧
      (stIdem.userMappingsCache.all fun p => p.2.key == p.1) = true ∧
      areAliasCachesEqual stIdem.aliasesCacheWithMetadata
        (buildAliasesCacheW stIdem false).1 = true) ∧
    (applyMappingsIncrementally stIdem [("alpha", fileMappingAlpha)] []).userMappingsCache
      = stIdem.userMappingsCache ∧
    rebuildAliasesCacheIfChanged stIdem = stIdem :=
  ⟨⟨by decide, by decide, by decide⟩,
    C2_reconcile_idempotent stIdem [("alpha", fileMappingAlpha)] [] (by decide)
      (by decide) (by decide) (by decide) (by decide)⟩

/-- A hypothetical JSON file mapping for the key cfg. -/
def jsonMappingCfg : UserMapping :=
  { key := "cfg", expression := "", sourceType := SourceType.file,
    source := "/maps/cfg.json", name := none, url := none }

/-- A state holding a text mapping for alpha and a JSON file mapping for cfg
with its cached raw serialization. -/
def stMix : PState :=
  { cfg := cfgBoth,
    userMappingsCache := [("alpha", fileMappingAlpha), ("cfg", jsonMappingCfg)],
    jsonMappingRawCache := [("cfg", "a:1,b:2")], serverMappingsMeta := [],
    serverAliases := [], fileAliases := [], aliasResourceId := none,
    aliasResourceMeta := none, aliasesCacheWithMetadata := [] }

/-- C3 counterexample: after a JSON mapping file is rewritten on disk with
key-reordered but structurally equivalent content, the file-poll JSON branch
performs no cache update at all: the deprecated readJsonFileRaw returns null,
so the step leaves the whole state unchanged and the cached entry and raw
serialization stay as they were, contradicting the claim that the rewrite is
treated as a change that updates the cache. -/
theorem C3_json_rewrite_no_cache_update :
    isJsonFileMapping jsonMappingCfg = true ∧
    getv stMix.jsonMappingRawCache "cfg" = some "a:1,b:2" ∧
    readJsonFileRaw "cfg" = none ∧
    loadJsonFileMapping "cfg" = none ∧
    pollFileJsonStep stMix "cfg" none ⟨0, none, none⟩ = stMix ∧
    getv (pollFileJsonStep stMix "cfg" none ⟨0, none, none⟩).userMappingsCache "cfg"
      = some jsonMappingCfg := by
  refine ⟨by decide, by decide, rfl, rfl, rfl, by decide⟩

theorem mappingsEquivalent_json_raw_differs (rawCache : List (String × String))
    (e m : UserMapping) (b : String)
    (hjson : isJsonFileMapping m = true)
    (hraw : (match getv rawCache e.key with
      | some a => a == b
      | none => false) = false) :
    mappingsEquivalent rawCache e m (some b) = false := by
  unfold mappingsEquivalent
  simp only [hjson, if_true]
  cases hget : getv rawCache e.key with
  | some a =>
    simp only [hget] at hraw
    simp [hraw]
  | none => simp [hget]

theorem mappingsEquivalent_self_text (rawCache : List (String × String))
    (fm : UserMapping) (hj : isJsonFileMapping fm = false) :
    mappingsEquivalent rawCache fm fm none = true := by
  unfold mappingsEquivalent
  simp [hj]

theorem pollFileText_unchanged (st : PState) (key : String) (fm : UserMapping)
    (resp : CondMappingResponse)
    (hc : getv st.userMappingsCache key = some fm)
    (hj : isJsonFileMapping fm = false) :
    pollFileTextStep st key (some fm) resp = st := by
  unfold pollFileTextStep
  simp only [hc, mappingsEquivalent_self_text st.jsonMappingRawCache fm hj,
    Bool.not_true, Bool.false_eq_true, if_neg, not_false_iff]

/-- C3 as amended: the difference rule of mappingsEquivalent does compare raw
serialized content for JSON file mappings, so differing serializations (for
example a key reorder) are never equivalent; but JSON files are no longer
loaded as mappings (loadJsonFileMapping and readJsonFileRaw always return
null), so the file-poll JSON branch never updates the mapping cache; a text
mapping file rewritten with byte-identical content reloads as an entry
equivalent to the cached one and causes no cache update. -/
theorem C3_amended_difference_rules (st : PState) (key jkey : String)
    (e m fm : UserMapping) (b : String) (fr : Option UserMapping)
    (resp : CondMappingResponse)
    (hjson : isJsonFileMapping m = true)
    (hraw : (match getv st.jsonMappingRawCache e.key with
      | some a => a == b
      | none => false) = false)
    (hc : getv st.userMappingsCache key = some fm)
    (hj : isJsonFileMapping fm = false) :
    mappingsEquivalent st.jsonMappingRawCache e m (some b) = false ∧
    loadJsonFileMapping jkey = none ∧
    readJsonFileRaw jkey = none ∧
    pollFileJsonStep st jkey fr resp = st ∧
    pollFileTextStep st key (some fm) resp = st :=
  ⟨mappingsEquivalent_json_raw_differs st.jsonMappingRawCache e m b hjson hraw,
    rfl, rfl, rfl, pollFileText_unchanged st key fm resp hc hj⟩

/-- Witness for the amended C3 at a concrete state. -/
theorem C3_amended_difference_rules_witness :
    isJsonFileMapping jsonMappingCfg = true ∧
    getv stMix.userMappingsCache "alpha" = some fileMappingAlpha ∧
    mappingsEquivalent stMix.jsonMappingRawCache jsonMappingCfg jsonMappingCfg
      (some "b:2,a:1") = false ∧
    pollFileTextStep stMix "alpha" (some fileMappingAlpha) ⟨0, none, none⟩ = stMix := by
  have h := C3_amended_difference_rules stMix "alpha" "cfg" jsonMappingCfg
    jsonMappingCfg fileMappingAlpha "b:2,a:1" none ⟨0, none, none⟩
    (by decide) (by decide) (by decide) (by decide)
  exact ⟨by decide, by decide, h.1, h.2.2.2.2⟩

theorem string_beq_comm (a b : String) : (a == b) = (b == a) := by
  by_cases h : a = b
  · simp [h]
  · simp [h, Ne.symm h]

theorem serverFold_containsKey (view : List (String × UserMapping))
    (acc : List (String × UserMapping)) (k : String) :
    containsKey (view.foldl (fun a p => setk a p.1 p.2) acc) k
      = (containsKey acc k || containsKey view k) := by
  induction view generalizing acc with
  | nil => simp [containsKey]
  | cons p rest ih =>
    simp only [List.foldl_cons]
    rw [ih, containsKey_setk]
    have hc : (k == p.1) = (p.1 == k) := string_beq_comm k p.1
    simp only [containsKey, List.any_cons, hc]
    cases (p.1 == k) <;> cases (List.any acc fun q => q.1 == k) <;> simp

theorem nodup_cons_head {α : Type} {l : List (String × α)} {p : String × α}
    (hnd : (keysOf (p :: l)).Nodup) : p.1 ∉ keysOf l := by
  simp only [keysOf, List.map_cons] at hnd
  exact (List.nodup_cons.mp hnd).1

theorem nodup_cons_tail {α : Type} {l : List (String × α)} {p : String × α}
    (hnd : (keysOf (p :: l)).Nodup) : (keysOf l).Nodup := by
  simp only [keysOf, List.map_cons] at hnd
  exact (List.nodup_cons.mp hnd).2

theorem ne_key_of_not_mem {α : Type} {l : List (String × α)} {p : String × α}
    {q : String × α} (hpnot : p.1 ∉ keysOf l) (hq : q ∈ l) : q.1 ≠ p.1 := by
  intro h
  exact hpnot (by rw [← h]; exact List.mem_map_of_mem (fun x => x.1) hq)

theorem getv_none_of_head_not_mem {α : Type} {l : List (String × α)} {k : String}
    (hpnot : k ∉ keysOf l) : getv l k = none := by
  apply getv_eq_none_of_not_contains
  cases h : containsKey l k with
  | false => rfl
  | true => exact absurd ((mem_keysOf_iff l k).mpr h) hpnot

theorem aliasLayerFold_getv (stype : AliasSourceType) (src : String)
    (view : List (String × String)) (acc : List (String × AliasWithMetadata))
    (k : String) (hnd : (keysOf view).Nodup) :
    getv (aliasLayerFold stype src view acc) k
      = (match getv view k with
        | some v => some ⟨v, stype, src⟩
        | none => getv acc k) := by
  induction view generalizing acc with
  | nil => rfl
  | cons p rest ih =>
    have hpnot := nodup_cons_head hnd
    show getv (aliasLayerFold stype src rest (setk acc p.1 ⟨p.2, stype, src⟩)) k = _
    rw [ih _ (nodup_cons_tail hnd)]
    by_cases hk : (p.1 == k) = true
    · have hk1 : p.1 = k := by simpa using hk
      have hrest : getv rest k = none := getv_none_of_head_not_mem (hk1 ▸ hpnot)
      rw [hrest]
      show getv (setk acc p.1 ⟨p.2, stype, src⟩) k = _
      rw [getv_setk, if_pos hk1.symm]
      rw [getv, if_pos hk]
    · have hk' : (p.1 == k) = false := by simpa using hk
      have hkne : k ≠ p.1 := by
        rw [beq_eq_false_iff_ne] at hk'
        exact Ne.symm hk'
      rw [getv, if_neg (by simp [hk'])]
      cases hg : getv rest k with
      | some v => rfl
      | none =>
        show getv (setk acc p.1 ⟨p.2, stype, src⟩) k = getv acc k
        exact getv_setk_ne _ _ hkne

theorem fileLayerFold_getv (logc : Bool) (src : String)
    (view : List (String × String))
    (acc : List (String × AliasWithMetadata) × List CollisionWarning)
    (k : String) (hnd : (keysOf view).Nodup) :
    getv (view.foldl (fileLayerStep logc src) acc).1 k
      = (match getv view k with
        | some v => some ⟨v, AliasSourceType.file, src⟩
        | none => getv acc.1 k) := by
  induction view generalizing acc with
  | nil => rfl
  | cons p rest ih =>
    have hpnot := nodup_cons_head hnd
    simp only [List.foldl_cons]
    rw [ih _ (nodup_cons_tail hnd)]
    by_cases hk : (p.1 == k) = true
    · have hk1 : p.1 = k := by simpa using hk
      have hrest : getv rest k = none := getv_none_of_head_not_mem (hk1 ▸ hpnot)
      rw [hrest]
      show getv (setk acc.1 p.1 ⟨p.2, AliasSourceType.file, src⟩) k = _
      rw [getv_setk, if_pos hk1.symm]
      rw [getv, if_pos hk]
    · have hk' : (p.1 == k) = false := by simpa using hk
      have hkne : k ≠ p.1 := by
        rw [beq_eq_false_iff_ne] at hk'
        exact Ne.symm hk'
      rw [getv, if_neg (by simp [hk'])]
      cases hg : getv rest k with
      | some v => rfl
      | none =>
        show getv (setk acc.1 p.1 ⟨p.2, AliasSourceType.file, src⟩) k = getv acc.1 k
        exact getv_setk_ne _ _ hkne

theorem fileLayerFold_warnings (src : String) (view : List (String × String))
    (acc : List (String × AliasWithMetadata) × List CollisionWarning)
    (hnd : (keysOf view).Nodup) :
    (view.foldl (fileLayerStep true src) acc).2
      = acc.2 ++ (view.filter fun p =>
          match getv acc.1 p.1 with
          | some e => e.sourceType == AliasSourceType.server
          | none => false).map (fun p => (⟨p.1, "file", "server"⟩ : CollisionWarning)) := by
  induction view generalizing acc with
  | nil => simp
  | cons p rest ih =>
    have hpnot := nodup_cons_head hnd
    simp only [List.foldl_cons]
    rw [ih _ (nodup_cons_tail hnd)]
    have hcong : (rest.filter fun q =>
        match getv (fileLayerStep true src acc p).1 q.1 with
        | some e => e.sourceType == AliasSourceType.server
        | none => false)
        = rest.filter fun q =>
          match getv acc.1 q.1 with
          | some e => e.sourceType == AliasSourceType.server
          | none => false := by
      apply List.filter_congr
      intro q hq
      have hqp : q.1 ≠ p.1 := ne_key_of_not_mem hpnot hq
      show (match getv (setk acc.1 p.1 ⟨p.2, AliasSourceType.file, src⟩) q.1 with
        | some e => e.sourceType == AliasSourceType.server
        | none => false) = _
      rw [getv_setk_ne _ _ hqp]
    rw [hcong]
    by_cases hcol : (match getv acc.1 p.1 with
        | some e => e.sourceType == AliasSourceType.server
        | none => false) = true
    · show ((if (match getv acc.1 p.1 with
          | some e => e.sourceType == AliasSourceType.server
          | none => false) && true then acc.2 ++ [⟨p.1, "file", "server"⟩] else acc.2)
          ++ _) = _
      simp [hcol, List.filter_cons]
    · have hcol' : (match getv acc.1 p.1 with
          | some e => e.sourceType == AliasSourceType.server
          | none => false) = false := by simpa using hcol
      show ((if (match getv acc.1 p.1 with
          | some e => e.sourceType == AliasSourceType.server
          | none => false) && true then acc.2 ++ [⟨p.1, "file", "server"⟩] else acc.2)
          ++ _) = _
      simp [hcol', List.filter_cons]

theorem mappingFileFold_warnings (view : List (String × UserMapping))
    (acc : List (String × UserMapping) × List CollisionWarning)
    (hnd : (keysOf view).Nodup) :
    (view.foldl mappingFileStep acc).2
      = acc.2 ++ (view.filter fun p => containsKey acc.1 p.1).map
          (fun p => (⟨p.1, "file", "server"⟩ : CollisionWarning)) := by
  induction view generalizing acc with
  | nil => simp
  | cons p rest ih =>
    have hpnot := nodup_cons_head hnd
    simp only [List.foldl_cons]
    rw [ih _ (nodup_cons_tail hnd)]
    have hcong : (rest.filter fun q => containsKey (mappingFileStep acc p).1 q.1)
        = rest.filter fun q => containsKey acc.1 q.1 := by
      apply List.filter_congr
      intro q hq
      have hqp : q.1 ≠ p.1 := ne_key_of_not_mem hpnot hq
      show containsKey (setk acc.1 p.1 p.2) q.1 = _
      rw [containsKey_setk]
      simp [hqp]
    rw [hcong]
    by_cases hcol : containsKey acc.1 p.1 = true
    · show ((if containsKey acc.1 p.1 then acc.2 ++ [⟨p.1, "file", "server"⟩] else acc.2)
          ++ _) = _
      simp [hcol, List.filter_cons]
    · have hcol' : containsKey acc.1 p.1 = false := by simpa using hcol
      show ((if containsKey acc.1 p.1 then acc.2 ++ [⟨p.1, "file", "server"⟩] else acc.2)
          ++ _) = _
      simp [hcol', List.filter_cons]

/-- A state whose server-alias view collides with the built-in alias ucum. -/
def stUcum : PState :=
  { cfg := cfgServerOnly, userMappingsCache := [], jsonMappingRawCache := [],
    serverMappingsMeta := [], serverAliases := [("ucum", "http://x")],
    fileAliases := [], aliasResourceId := some "aliasCm",
    aliasResourceMeta := none, aliasesCacheWithMetadata := [] }

/-- C8 counterexample: the built-in alias ucum is also defined by the server
view, a genuine higher-over-lower collision, yet buildAliasesCache emits no
warning at all while silently overwriting the built-in entry with the server
one, so no collision warning is emitted for the server-over-built-in pair. -/
theorem C8_builtin_overwrite_no_warning :
    getv builtInAliases "ucum" = some "http://unitsofmeasure.org" ∧
    getv stUcum.serverAliases "ucum" = some "http://x" ∧
    (buildAliasesCacheW stUcum true).2 = [] ∧
    getv (buildAliasesCacheW stUcum true).1 "ucum"
      = some ⟨"http://x", AliasSourceType.server, "http://srv/fhir/ConceptMap/aliasCm"⟩ := by
  refine ⟨by decide, by decide, by decide, by decide⟩

/-- C8 as amended: exactly one collision warning naming the key and the file
and server source types is emitted for every file entry whose key the server
view currently owns, both for aliases in buildAliasesCache and for mappings in
loadMappings, and each warned key is then overwritten by the file view; but
overwrites of built-in aliases by the server or file layers emit no warning. -/
theorem C8_amended_collision_warnings (st : PState)
    (serverView fileView : List (String × UserMapping))
    (hndf : (keysOf st.fileAliases).Nodup)
    (hnds : (keysOf st.serverAliases).Nodup)
    (hndfv : (keysOf fileView).Nodup) :
    (buildAliasesCacheW st true).2
      = (st.fileAliases.filter fun p => containsKey st.serverAliases p.1).map
          (fun p => ⟨p.1, "file", "server"⟩) ∧
    (∀ k v, getv st.fileAliases k = some v →
      getv (buildAliasesCacheW st true).1 k
        = some ⟨v, AliasSourceType.file, getFileAliasSourceString st⟩) ∧
    (loadMappingsW true true serverView fileView).2
      = (fileView.filter fun p => containsKey serverView p.1).map
          (fun p => ⟨p.1, "file", "server"⟩) := by
  have hbuiltinnd : (keysOf builtInAliases).Nodup := by decide
  have hcond : ∀ k, (match getv (aliasLayerFold AliasSourceType.server
      (getServerAliasSourceString st) st.serverAliases
      (aliasLayerFold AliasSourceType.builtIn "builtIn" builtInAliases [])) k with
      | some e => e.sourceType == AliasSourceType.server
      | none => false) = containsKey st.serverAliases k := by
    intro k
    rw [aliasLayerFold_getv _ _ _ _ _ hnds]
    cases hg : getv st.serverAliases k with
    | some v =>
      have : containsKey st.serverAliases k = true := by
        rw [← getv_isSome_eq_containsKey, hg]
        rfl
      simp [this]
    | none =>
      have hck : containsKey st.serverAliases k = false := by
        rw [← getv_isSome_eq_containsKey, hg]
        rfl
      rw [hck, aliasLayerFold_getv _ _ _ _ _ hbuiltinnd]
      cases hgb : getv builtInAliases k with
      | some v => rfl
      | none => rfl
  refine ⟨?_, ?_, ?_⟩
  · show (st.fileAliases.foldl (fileLayerStep true (getFileAliasSourceString st))
      (aliasLayerFold AliasSourceType.server (getServerAliasSourceString st)
        st.serverAliases
        (aliasLayerFold AliasSourceType.builtIn "builtIn" builtInAliases []), [])).2 = _
    rw [fileLayerFold_warnings _ _ _ hndf]
    rw [List.nil_append]
    apply congrArg
    apply List.filter_congr
    intro q hq
    exact hcond q.1
  · intro k v hkv
    show getv (st.fileAliases.foldl (fileLayerStep true (getFileAliasSourceString st))
      (aliasLayerFold AliasSourceType.server (getServerAliasSourceString st)
        st.serverAliases
        (aliasLayerFold AliasSourceType.builtIn "builtIn" builtInAliases []), [])).1 k = _
    rw [fileLayerFold_getv _ _ _ _ _ hndf, hkv]
  · show (fileView.foldl mappingFileStep
      (serverView.foldl (fun a p => setk a p.1 p.2) [], [])).2 = _
    rw [mappingFileFold_warnings _ _ hndfv, List.nil_append]
    apply congrArg
    apply List.filter_congr
    intro q hq
    show containsKey (serverView.foldl (fun a p => setk a p.1 p.2) []) q.1 = _
    rw [serverFold_containsKey]
    rfl

/-- A state with a file alias colliding with a server alias on k1. -/
def stColl : PState :=
  { cfg := cfgBoth, userMappingsCache := [], jsonMappingRawCache := [],
    serverMappingsMeta := [], serverAliases := [("k1", "v2"), ("k2", "v3")],
    fileAliases := [("k1", "v1")], aliasResourceId := none,
    aliasResourceMeta := none, aliasesCacheWithMetadata := [] }

/-- Witness for the amended C8 at concrete views: one file alias colliding
with a server alias yields exactly one warning naming the key and both source
types, and the file entry wins. -/
theorem C8_amended_collision_warnings_witness :
    (keysOf stColl.fileAliases).Nodup ∧
    (buildAliasesCacheW stColl true).2 = [⟨"k1", "file", "server"⟩] ∧
    getv (buildAliasesCacheW stColl true).1 "k1"
      = some ⟨"v1", AliasSourceType.file, "/maps/aliases.json"⟩ ∧
    (loadMappingsW true true [("alpha", serverMappingAlpha)]
      [("alpha", fileMappingAlpha)]).2 = [⟨"alpha", "file", "server"⟩] := by
  have h := C8_amended_collision_warnings stColl [("alpha", serverMappingAlpha)]
    [("alpha", fileMappingAlpha)] (by decide) (by decide) (by decide)
  refine ⟨by decide, ?_, ?_, ?_⟩
  · rw [h.1]; decide
  · rw [h.2.1 "k1" "v1" (by decide)]; decide
  · rw [h.2.2]; decide

theorem all_keys_setk {α : Type} (l : List (String × α)) (k : String) (v : α)
    (pred : String → Bool)
    (hl : (l.all fun p => pred p.1) = true) (hk : pred k = true) :
    ((setk l k v).all fun p => pred p.1) = true := by
  induction l with
  | nil => simp [setk, hk]
  | cons p rest ih =>
    simp only [List.all_cons, Bool.and_eq_true] at hl
    cases hp : (p.1 == k) with
    | true =>
      have hstep : setk (p :: rest) k v = (k, v) :: rest := by simp [setk, hp]
      rw [hstep]
      simp only [List.all_cons, Bool.and_eq_true]
      exact ⟨hk, hl.2⟩
    | false =>
      have hstep : setk (p :: rest) k v = p :: setk rest k v := by simp [setk, hp]
      rw [hstep]
      simp only [List.all_cons, Bool.and_eq_true]
      exact ⟨hl.1, ih hl.2⟩

theorem filterFold_keys_valid (input : List (String × JsonLite))
    (acc : List (String × String) × List AliasSkipWarning)
    (hacc : (acc.1.all fun p => aliasKeyValid p.1) = true) :
    ((input.foldl aliasFilterStep acc).1.all fun p => aliasKeyValid p.1) = true := by
  induction input generalizing acc with
  | nil => exact hacc
  | cons p rest ih =>
    simp only [List.foldl_cons]
    apply ih
    unfold aliasFilterStep
    by_cases hv : aliasKeyValid p.1 = true
    · simp only [hv, Bool.not_true, Bool.false_eq_true, if_neg, not_false_iff]
      cases p.2 with
      | str s => exact all_keys_setk _ _ _ _ hacc hv
      | other => exact hacc
    · have hv' : aliasKeyValid p.1 = false := by simpa using hv
      simp [hv', hacc]

theorem filterFold_getv_stable (input : List (String × JsonLite))
    (acc : List (String × String) × List AliasSkipWarning) (k : String)
    (hne : ∀ q ∈ input, q.1 ≠ k) :
    getv (input.foldl aliasFilterStep acc).1 k = getv acc.1 k := by
  induction input generalizing acc with
  | nil => rfl
  | cons p rest ih =>
    simp only [List.foldl_cons]
    rw [ih _ fun q hq => hne q (List.mem_cons_of_mem p hq)]
    have hpk : p.1 ≠ k := hne p (List.mem_cons_self p rest)
    unfold aliasFilterStep
    by_cases hv : aliasKeyValid p.1 = true
    · simp only [hv, Bool.not_true, Bool.false_eq_true, if_neg, not_false_iff]
      cases p.2 with
      | str s => exact getv_setk_ne _ _ (Ne.symm hpk)
      | other => rfl
    · have hv' : aliasKeyValid p.1 = false := by simpa using hv
      simp [hv']

theorem filterFold_getv_mem (input : List (String × JsonLite))
    (acc : List (String × String) × List AliasSkipWarning) (k s : String)
    (hnd : (keysOf input).Nodup) (hval : aliasKeyValid k = true)
    (hmem : (k, JsonLite.str s) ∈ input) :
    getv (input.foldl aliasFilterStep acc).1 k = some s := by
  induction input generalizing acc with
  | nil => cases hmem
  | cons p rest ih =>
    have hpnot := nodup_cons_head hnd
    simp only [List.foldl_cons]
    rcases List.mem_cons.mp hmem with hk | hk
    · have hp1 : p.1 = k := by rw [← hk]
      have hrestne : ∀ q ∈ rest, q.1 ≠ k := by
        intro q hq
        exact fun h => (ne_key_of_not_mem hpnot hq) (h.trans hp1.symm)
      rw [filterFold_getv_stable rest _ k hrestne]
      rw [← hk]
      unfold aliasFilterStep
      simp only [hval]
      show getv (setk acc.1 k s) k = some s
      exact getv_setk_self _ _ _
    · exact ih _ (nodup_cons_tail hnd) hk

theorem filterFold_warnings (input : List (String × JsonLite))
    (acc : List (String × String) × List AliasSkipWarning) :
    (input.foldl aliasFilterStep acc).2
      = acc.2 ++ (input.filter fun p => !(aliasKeyValid p.1 &&
          (match p.2 with
          | JsonLite.str _ => true
          | JsonLite.other => false))).map
          (fun p => (⟨p.1, if aliasKeyValid p.1 then AliasSkipReason.nonString
            else AliasSkipReason.invalidKey⟩ : AliasSkipWarning)) := by
  induction input generalizing acc with
  | nil => simp
  | cons p rest ih =>
    simp only [List.foldl_cons]
    rw [ih]
    by_cases hv : aliasKeyValid p.1 = true
    · cases hps : p.2 with
      | str s =>
        have hstep : aliasFilterStep acc p = (setk acc.1 p.1 s, acc.2) := by
          unfold aliasFilterStep
          simp [hv, hps]
        rw [hstep]
        simp [List.filter_cons, hv, hps]
      | other =>
        have hstep : aliasFilterStep acc p
            = (acc.1, acc.2 ++ [⟨p.1, AliasSkipReason.nonString⟩]) := by
          unfold aliasFilterStep
          simp [hv, hps]
        rw [hstep]
        simp [List.filter_cons, hv, hps]
    · have hv' : aliasKeyValid p.1 = false := by simpa using hv
      have hstep : aliasFilterStep acc p
          = (acc.1, acc.2 ++ [⟨p.1, AliasSkipReason.invalidKey⟩]) := by
        unfold aliasFilterStep
        simp [hv']
      rw [hstep]
      simp [List.filter_cons, hv']

theorem aliasLayerFold_keys_valid (stype : AliasSourceType) (src : String)
    (view : List (String × String)) (acc : List (String × AliasWithMetadata))
    (hv : (view.all fun p => aliasKeyValid p.1) = true)
    (hacc : (acc.all fun p => aliasKeyValid p.1) = true) :
    ((aliasLayerFold stype src view acc).all fun p => aliasKeyValid p.1) = true := by
  induction view generalizing acc with
  | nil => exact hacc
  | cons p rest ih =>
    simp only [List.all_cons, Bool.and_eq_true] at hv
    show ((aliasLayerFold stype src rest (setk acc p.1 ⟨p.2, stype, src⟩)).all
      fun p => aliasKeyValid p.1) = true
    exact ih _ hv.2 (all_keys_setk _ _ _ _ hacc hv.1)

theorem fileLayerFold_keys_valid (logc : Bool) (src : String)
    (view : List (String × String))
    (acc : List (String × AliasWithMetadata) × List CollisionWarning)
    (hv : (view.all fun p => aliasKeyValid p.1) = true)
    (hacc : (acc.1.all fun p => aliasKeyValid p.1) = true) :
    (((view.foldl (fileLayerStep logc src) acc).1).all
      fun p => aliasKeyValid p.1) = true := by
  induction view generalizing acc with
  | nil => exact hacc
  | cons p rest ih =>
    simp only [List.all_cons, Bool.and_eq_true] at hv
    simp only [List.foldl_cons]
    apply ih _ hv.2
    show ((setk acc.1 p.1 ⟨p.2, AliasSourceType.file, src⟩).all
      fun p => aliasKeyValid p.1) = true
    exact all_keys_setk _ _ _ _ hacc hv.1

/-- C10: every built-in alias key matches the alias-key pattern; the
validation filter keeps only entries with a pattern-matching key and a string
value, skips each invalid entry with exactly one warning while the valid
entries of the same batch still apply, and the merged alias cache built from
validated server and file views holds only pattern-matching keys with string
values. -/
theorem C10_alias_view_keys_valid (st : PState)
    (input : List (String × JsonLite)) (k s : String)
    (hs : (st.serverAliases.all fun p => aliasKeyValid p.1) = true)
    (hf : (st.fileAliases.all fun p => aliasKeyValid p.1) = true)
    (hnd : (keysOf input).Nodup)
    (hval : aliasKeyValid k = true)
    (hmem : (k, JsonLite.str s) ∈ input) :
    (builtInAliases.all fun p => aliasKeyValid p.1) = true ∧
    ((filterInvalidAliasesW input).1.all fun p => aliasKeyValid p.1) = true ∧
    getv (filterInvalidAliasesW input).1 k = some s ∧
    (filterInvalidAliasesW input).2
      = (input.filter fun p => !(aliasKeyValid p.1 &&
          (match p.2 with
          | JsonLite.str _ => true
          | JsonLite.other => false))).map
          (fun p => ⟨p.1, if aliasKeyValid p.1 then AliasSkipReason.nonString
            else AliasSkipReason.invalidKey⟩) ∧
    (((buildAliasesCacheW st true).1).all fun p => aliasKeyValid p.1) = true := by
  refine ⟨by decide, filterFold_keys_valid input _ rfl,
    filterFold_getv_mem input _ k s hnd hval hmem, filterFold_warnings input _, ?_⟩
  show (((st.fileAliases.foldl (fileLayerStep true (getFileAliasSourceString st))
    (aliasLayerFold AliasSourceType.server (getServerAliasSourceString st)
      st.serverAliases
      (aliasLayerFold AliasSourceType.builtIn "builtIn" builtInAliases []), [])).1).all
    fun p => aliasKeyValid p.1) = true
  apply fileLayerFold_keys_valid _ _ _ _ hf
  apply aliasLayerFold_keys_valid _ _ _ _ hs
  exact aliasLayerFold_keys_valid _ _ _ _ (by decide) (by decide)

/-- Witness for C10 at a concrete batch holding one valid entry, one entry
with an invalid key and one entry with a non-string value. -/
theorem C10_alias_view_keys_valid_witness :
    aliasKeyValid "good" = true ∧
    getv (filterInvalidAliasesW
      [("good", JsonLite.str "v"), ("bad key", JsonLite.str "w"),
        ("num", JsonLite.other)]).1 "good" = some "v" ∧
    ((filterInvalidAliasesW
      [("good", JsonLite.str "v"), ("bad key", JsonLite.str "w"),
        ("num", JsonLite.other)]).1.all fun p => aliasKeyValid p.1) = true := by
  have h := C10_alias_view_keys_valid stUcum
    [("good", JsonLite.str "v"), ("bad key", JsonLite.str "w"),
      ("num", JsonLite.other)] "good" "v" (by decide) (by decide) (by decide)
    (by decide) (by decide)
  exact ⟨by decide, h.2.2.1, h.2.1⟩
